import Mathlib

/-!
# The filter tree of the content editor (`apps/opencs/viewmodel/filtereditmodel.cpp`)

A shallow embedding of `FilterEditModel`: the filter nodes live in a heap (a list of
records, a pointer is a position in it), a `QModelIndex` is a row, a column and an
internal pointer, and every member function of the model becomes a function on the
model state.  Signals sent to views (`dataChanged`, `beginRemoveRows`, ...) and log
output (`qWarning`, `qDebug`) are not part of the state.
-/

set_option autoImplicit false

namespace FilterEdit

/-! ## Values of the toolkit -/

/-- The variant type of the toolkit, restricted to the payloads this model produces or
consumes: nothing, a boolean, an integer, a string, a list of strings, an icon path. -/
inductive QVariant where
  | invalid
  | bool (b : Bool)
  | int (i : Int)
  | string (s : String)
  | stringList (l : List String)
  | icon (path : String)
  deriving DecidableEq

namespace QVariant

/-- Conversion `QVariant::toString`. -/
def toString : QVariant → String
  | .string s => s
  | .int i => ToString.toString i
  | .bool b => if b then "true" else "false"
  | .stringList l => match l with
    | [s] => s
    | _ => ""
  | _ => ""

/-- Conversion `QVariant::toInt`: 0 when there is no conversion; a string converts when it
is the decimal text of an integer. -/
def toInt : QVariant → Int
  | .int i => i
  | .bool b => if b then 1 else 0
  | .string s => (s.toInt?).getD 0
  | _ => 0

/-- Conversion `QVariant::toBool`. -/
def toBool : QVariant → Bool
  | .bool b => b
  | .int i => i != 0
  | .string s => !(s.toLower == "" || s.toLower == "0" || s.toLower == "false")
  | _ => false

/-- Comparison `value == n` of a variant with an integer constant: numeric payloads are
compared as numbers, a string with the decimal text of the constant. -/
def eqInt : QVariant → Int → Bool
  | .int i, n => i == n
  | .bool b, n => (if b then 1 else 0) == n
  | .string s, n => s == ToString.toString n
  | _, _ => false

end QVariant

/-- Item data role `Qt::DisplayRole`. -/
def DisplayRole : Int := 0
/-- Item data role `Qt::DecorationRole`. -/
def DecorationRole : Int := 1
/-- Item data role `Qt::EditRole`. -/
def EditRole : Int := 2
/-- Item data role `Qt::CheckStateRole`. -/
def CheckStateRole : Int := 10
/-- Check state `Qt::Unchecked`. -/
def Unchecked : Int := 0
/-- Check state `Qt::Checked`. -/
def Checked : Int := 2

/-! ## Filter nodes -/

/-- A pointer to a filter node: its position in the heap.  The null pointer is `none`
of `Option Ptr`. -/
abbrev Ptr := Nat

/-- Modelled from the spec: the concrete classes of filter nodes, whose declarations
(`model/filter/*.hpp`) are not among the sources.  `UnionFilter` and `IntersectionFilter`
are the two concrete `FilterList` variants, `MatchFilter` and `DefaultFilter` are leaves. -/
inductive FilterKind where
  | Default
  | Match
  | Union
  | Intersection
  deriving DecidableEq

/-- Enumerator `MatchFilter::Exact`. -/
def Exact : Int := 0
/-- Enumerator `MatchFilter::Wildcard`. -/
def Wildcard : Int := 1
/-- Enumerator `MatchFilter::Regex`. -/
def Regex : Int := 2

/-- Modelled from the spec: a filter object, whose class declaration is not among the
sources.  A node has a name, an enabled flag and a parent back-reference; a `FilterList`
owns an ordered sequence of children; a `MatchFilter` has a match type, a key and a value.
The record is flat: `children` is only touched on `FilterList` nodes and `type`, `key`,
`value` only on `MatchFilter` nodes, which is what the casts of the source enforce. -/
structure Filter where
  kind : FilterKind
  name : String
  enabled : Bool
  parent : Option Ptr
  children : List Ptr
  type : Int
  key : String
  value : String
  deriving DecidableEq

/-- The heap of filter objects. -/
abbrev Heap := List Filter

/-- Whether `dynamic_cast<FilterList*>` succeeds on the object. -/
def Filter.isFilterList (f : Filter) : Bool :=
  f.kind == FilterKind.Union || f.kind == FilterKind.Intersection

/-- Pointer dereference; a null pointer has no object. -/
def deref (h : Heap) : Option Ptr → Option Filter
  | none => none
  | some p => h[p]?

/-- Cast `dynamic_cast<FilterList*>(p)`: the pointer itself when it points to a `FilterList`,
null otherwise (also for a null pointer). -/
def asFilterList (h : Heap) (p : Option Ptr) : Option Ptr :=
  match p with
  | none => none
  | some q =>
    match h[q]? with
    | some f => if f.isFilterList then some q else none
    | none => none

/-- Cast `dynamic_cast<UnionFilter*>(p)`. -/
def asUnionFilter (h : Heap) (p : Option Ptr) : Option Ptr :=
  match p with
  | none => none
  | some q =>
    match h[q]? with
    | some f => if f.kind == FilterKind.Union then some q else none
    | none => none

/-- Cast `dynamic_cast<IntersectionFilter*>(p)`. -/
def asIntersectionFilter (h : Heap) (p : Option Ptr) : Option Ptr :=
  match p with
  | none => none
  | some q =>
    match h[q]? with
    | some f => if f.kind == FilterKind.Intersection then some q else none
    | none => none

/-- Cast `dynamic_cast<MatchFilter*>(p)`. -/
def asMatchFilter (h : Heap) (p : Option Ptr) : Option Ptr :=
  match p with
  | none => none
  | some q =>
    match h[q]? with
    | some f => if f.kind == FilterKind.Match then some q else none
    | none => none

/-- Replace the object a pointer points to. -/
def update (h : Heap) (p : Ptr) (g : Filter → Filter) : Heap :=
  match h[p]? with
  | some f => h.set p (g f)
  | none => h

/-- Modelled from the spec: the allocation `new UnionFilter(parent)`, whose constructor is
not among the sources; a fresh node is enabled, unnamed and childless. -/
def newUnionFilter (parent : Option Ptr) : Filter :=
  { kind := FilterKind.Union, name := "", enabled := true, parent := parent, children := [],
    type := Exact, key := "", value := "" }

/-- Modelled from the spec: the allocation `new IntersectionFilter(parent)`, as
`newUnionFilter`. -/
def newIntersectionFilter (parent : Option Ptr) : Filter :=
  { kind := FilterKind.Intersection, name := "", enabled := true, parent := parent, children := [],
    type := Exact, key := "", value := "" }

/-- Modelled from the spec: the allocation `new MatchFilter(matchType, key, value, parent)`,
as `newUnionFilter`. -/
def newMatchFilter (matchType : Int) (key value : String) (parent : Option Ptr) : Filter :=
  { kind := FilterKind.Match, name := "", enabled := true, parent := parent, children := [],
    type := matchType, key := key, value := value }

/-- Modelled from the spec: the allocation `new DefaultFilter(parent)`, as
`newUnionFilter`. -/
def newDefaultFilter (parent : Option Ptr) : Filter :=
  { kind := FilterKind.Default, name := "", enabled := true, parent := parent, children := [],
    type := Exact, key := "", value := "" }

/-- Modelled from the spec: member `FilterList::childCount`, not among the sources; the
number of children. -/
def childCount (h : Heap) (p : Ptr) : Int :=
  match h[p]? with
  | some f => (f.children.length : Int)
  | none => 0

/-- Modelled from the spec: member `FilterList::child`, not among the sources; the child at
a position, null when the position is not one of a child. -/
def child (h : Heap) (p : Ptr) (row : Int) : Option Ptr :=
  match h[p]? with
  | some f => if row < 0 then none else f.children[row.toNat]?
  | none => none

/-- Modelled from the spec: member `FilterList::rowOfChild`, not among the sources; linear
search, the position of the child or the sentinel -1 when it is not found. -/
def rowOfChild (h : Heap) (p : Ptr) (c : Ptr) : Int :=
  match h[p]? with
  | some f => if c ∈ f.children then (f.children.indexOf c : Int) else -1
  | none => -1

/-- Modelled from the spec: member `FilterList::appendChild`, not among the sources; adds
the child at the end and sets the parent of the child to this list. -/
def appendChild (h : Heap) (p : Ptr) (c : Ptr) : Heap :=
  update (update h p (fun f => { f with children := f.children ++ [c] })) c
    (fun f => { f with parent := some p })

/-- Modelled from the spec: member `FilterList::removeChild`, not among the sources; fails,
changing nothing, when the index is not the position of a child; otherwise detaches the
subtree at that index.  The storage of the detached subtree is not reclaimed in this
model. -/
def removeChild (h : Heap) (p : Ptr) (row : Int) : Bool × Heap :=
  match h[p]? with
  | some f =>
    if 0 ≤ row ∧ row < (f.children.length : Int) then
      (true, h.set p { f with children := f.children.eraseIdx row.toNat })
    else (false, h)
  | none => (false, h)

/-- Modelled from the spec: the property read `QObject::property` on a filter, whose
property declarations are not among the sources.  The editable properties are the enabled
flag of every node and the match type, key and value of a `MatchFilter`; any other name
has no property and reads as an invalid variant. -/
def property (f : Filter) (name : String) : QVariant :=
  if name == "enabled" then QVariant.bool f.enabled
  else if f.kind == FilterKind.Match && name == "type" then QVariant.int f.type
  else if f.kind == FilterKind.Match && name == "key" then QVariant.string f.key
  else if f.kind == FilterKind.Match && name == "value" then QVariant.string f.value
  else QVariant.invalid

/-- Modelled from the spec: the property write `QObject::setProperty` on a filter, as
`property`; a name without a declared property leaves the fields of the node alone. -/
def setProperty (f : Filter) (name : String) (v : QVariant) : Filter :=
  if name == "enabled" then { f with enabled := v.toBool }
  else if f.kind == FilterKind.Match && name == "type" then { f with type := v.toInt }
  else if f.kind == FilterKind.Match && name == "key" then { f with key := v.toString }
  else if f.kind == FilterKind.Match && name == "value" then { f with value := v.toString }
  else f

/-! ## The item model -/

/-- A model index: row, column, internal pointer, and whether it belongs to the model.
The default-constructed index has row and column -1, a null pointer and no model. -/
structure QModelIndex where
  row : Int
  column : Int
  internalPointer : Option Ptr
  hasModel : Bool
  deriving DecidableEq

/-- The default-constructed (invalid) index `QModelIndex()`, which stands for the root. -/
def QModelIndex.invalid : QModelIndex :=
  { row := -1, column := -1, internalPointer := none, hasModel := false }

/-- Test `QModelIndex::isValid`. -/
def QModelIndex.isValid (i : QModelIndex) : Bool :=
  decide (0 ≤ i.row) && decide (0 ≤ i.column) && i.hasModel

/-- Factory `QAbstractItemModel::createIndex`. -/
def createIndex (row column : Int) (ptr : Option Ptr) : QModelIndex :=
  { row := row, column := column, internalPointer := ptr, hasModel := true }

/-- The undoable command of the source: target node, property name, old and new value. -/
structure EditPropertyCommand where
  mFilter : Ptr
  mPropertyName : String
  mOldValue : QVariant
  mNewValue : QVariant
  deriving DecidableEq

/-- The constructor of `EditPropertyCommand`: the old value is read from the node when the
command is built. -/
def EditPropertyCommand.create (h : Heap) (filter : Ptr) (propertyName : String)
    (newValue : QVariant) : EditPropertyCommand :=
  { mFilter := filter, mPropertyName := propertyName,
    mOldValue := match h[filter]? with
      | some f => property f propertyName
      | none => QVariant.invalid,
    mNewValue := newValue }

/-- Member `EditPropertyCommand::undo`. -/
def EditPropertyCommand.undo (c : EditPropertyCommand) (h : Heap) : Heap :=
  update h c.mFilter (fun f => setProperty f c.mPropertyName c.mOldValue)

/-- Member `EditPropertyCommand::redo`. -/
def EditPropertyCommand.redo (c : EditPropertyCommand) (h : Heap) : Heap :=
  update h c.mFilter (fun f => setProperty f c.mPropertyName c.mNewValue)

/-- The undo stack of the toolkit: the recorded commands, oldest first, and the number of
them that are currently applied. -/
structure QUndoStack where
  commands : List EditPropertyCommand
  index : Nat
  deriving DecidableEq

/-- The state of a `FilterEditModel`. -/
structure FilterEditModel where
  heap : Heap
  mRootItem : Ptr
  mUndoStack : QUndoStack
  deriving DecidableEq

/-- Operation `QUndoStack::push`: drops the undone commands, runs `redo` of the new command
and records it. -/
def push (m : FilterEditModel) (cmd : EditPropertyCommand) : FilterEditModel :=
  { m with
    heap := cmd.redo m.heap,
    mUndoStack :=
      { commands := m.mUndoStack.commands.take m.mUndoStack.index ++ [cmd],
        index := (m.mUndoStack.commands.take m.mUndoStack.index).length + 1 } }

/-- Operation `QUndoStack::undo`: reverts the last applied command, if there is one. -/
def undo (m : FilterEditModel) : FilterEditModel :=
  match m.mUndoStack.index with
  | 0 => m
  | i + 1 =>
    match m.mUndoStack.commands[i]? with
    | some cmd =>
      { m with heap := cmd.undo m.heap, mUndoStack := { m.mUndoStack with index := i } }
    | none => m

/-- Operation `QUndoStack::redo`: re-applies the first undone command, if there is one. -/
def redo (m : FilterEditModel) : FilterEditModel :=
  match m.mUndoStack.commands[m.mUndoStack.index]? with
  | some cmd =>
    { m with heap := cmd.redo m.heap,
             mUndoStack := { m.mUndoStack with index := m.mUndoStack.index + 1 } }
  | none => m

/-- Member `FilterEditModel::columnCount`. -/
def columnCount (_m : FilterEditModel) (_parent : QModelIndex) : Int := 4

/-- Member `FilterEditModel::rowCount`. -/
def rowCount (m : FilterEditModel) (parent : QModelIndex) : Int :=
  if parent.column > 0 then 0
  else
    let parentItem := if parent.isValid then parent.internalPointer else some m.mRootItem
    match asFilterList m.heap parentItem with
    | some filterList => childCount m.heap filterList
    | none => 0

/-- Member `QAbstractItemModel::hasIndex`. -/
def hasIndex (m : FilterEditModel) (row column : Int) (parent : QModelIndex) : Bool :=
  if row < 0 ∨ column < 0 then false
  else decide (row < rowCount m parent) && decide (column < columnCount m parent)

/-- Member `FilterEditModel::index`. -/
def index (m : FilterEditModel) (row column : Int) (parent : QModelIndex) : QModelIndex :=
  if !hasIndex m row column parent then QModelIndex.invalid
  else
    let parentItem := if !parent.isValid then some m.mRootItem else parent.internalPointer
    match asFilterList m.heap parentItem with
    | some unionFilter =>
      match child m.heap unionFilter row with
      | some childItem => createIndex row column (some childItem)
      | none => QModelIndex.invalid
    | none => QModelIndex.invalid

/-- Member `FilterEditModel::parent`. -/
def parent (m : FilterEditModel) (index : QModelIndex) : QModelIndex :=
  if !index.isValid then QModelIndex.invalid
  else
    match index.internalPointer with
    | none => QModelIndex.invalid
    | some childItem =>
      let parentItem := (deref m.heap (some childItem)).bind (fun f => f.parent)
      if parentItem = some m.mRootItem then QModelIndex.invalid
      else
        let row := match asFilterList m.heap parentItem with
          | some filterList => rowOfChild m.heap filterList childItem
          | none => 0
        createIndex row 0 parentItem

/-- Member `FilterEditModel::data`.  The value of the role `ItemCommandsRole` is declared in
the header, which is not among the sources, and is a parameter here. -/
def data (ItemCommandsRole : Int) (m : FilterEditModel) (index : QModelIndex) (role : Int) :
    QVariant :=
  if !index.isValid then QVariant.invalid
  else
    match deref m.heap index.internalPointer with
    | none => QVariant.invalid
    | some filter =>
      let rest : QVariant :=
        if role = EditRole ∨ role = DisplayRole then
          if index.column = 0 then QVariant.string filter.name
          else if filter.kind = FilterKind.Match then
            if index.column = 1 then QVariant.int filter.type
            else if index.column = 2 then QVariant.string filter.key
            else if index.column = 3 then QVariant.string filter.value
            else QVariant.invalid
          else QVariant.invalid
        else QVariant.invalid
      if index.column = 0 then
        if role = DisplayRole then QVariant.string filter.name
        else if role = CheckStateRole then
          QVariant.int (if filter.enabled then Checked else Unchecked)
        else if role = ItemCommandsRole then
          QVariant.stringList
            ((if filter.isFilterList then ["addUnion", "addIntersection", "addMatch", "-"]
              else []) ++ ["delete"])
        else if role = DecorationRole then
          if filter.kind = FilterKind.Union then QVariant.icon ":/icon/filter/union.png"
          else if filter.kind = FilterKind.Intersection then
            QVariant.icon ":/icon/filter/intersection.png"
          else if filter.kind = FilterKind.Match then
            if filter.type = Exact then QVariant.icon ":/icon/filter/exact.png"
            else if filter.type = Wildcard then QVariant.icon ":/icon/filter/wildcard.png"
            else if filter.type = Regex then QVariant.icon ":/icon/filter/regex.png"
            else rest
          else rest
        else rest
      else rest

/-- Member `FilterEditModel::setData`: the success flag and the new state. -/
def setData (m : FilterEditModel) (index : QModelIndex) (value : QVariant) (role : Int) :
    Bool × FilterEditModel :=
  if !index.isValid then (false, m)
  else
    let column := index.column
    match index.internalPointer with
    | none => (false, m)
    | some item =>
      if column = 0 ∧ role = CheckStateRole then
        let newValue := if value.eqInt Checked then true else false
        (true, push m (EditPropertyCommand.create m.heap item "enabled" (QVariant.bool newValue)))
      else if column = 0 ∧ role = EditRole then
        (true, { m with heap := update m.heap item (fun f => { f with name := value.toString }) })
      else if role = EditRole then
        match asMatchFilter m.heap (some item) with
        | some matchFilter =>
          if column = 1 then
            let matchType := value.toInt
            (true, push m (EditPropertyCommand.create m.heap matchFilter "type" (QVariant.int matchType)))
          else if column = 2 then
            (true, push m (EditPropertyCommand.create m.heap matchFilter "key" value))
          else if column = 3 then
            (true, push m (EditPropertyCommand.create m.heap matchFilter "value" value))
          else (false, m)
        | none => (false, m)
      else (false, m)

/-- Member `FilterEditModel::removeRows`: the returned flag and the new state.  In the source
`count` only enters the notification `beginRemoveRows(parent, row, row + count)`; the
removal itself is the single call `removeChild(row)`, whose result is not looked at. -/
def removeRows (m : FilterEditModel) (row count : Int) (parent : QModelIndex) :
    Bool × FilterEditModel :=
  let _lastAnnouncedRow := row + count
  let filter := parent.internalPointer
  match asFilterList m.heap filter with
  | some unionFilter =>
    (true, { m with heap := (removeChild m.heap unionFilter row).2 })
  | none => (false, m)

/-- Member `QAbstractItemModel::removeRow`. -/
def removeRow (m : FilterEditModel) (row : Int) (parent : QModelIndex) :
    Bool × FilterEditModel :=
  removeRows m row 1 parent

/-- Member `FilterEditModel::executeCommand`; the argument index is called `parent` in the
source. -/
def executeCommand (m : FilterEditModel) (name : String) (node : QModelIndex) :
    FilterEditModel :=
  let filter := node.internalPointer
  let m1 := if name = "delete" then (removeRow m node.row (parent m node)).2 else m
  if name = "addUnion" ∨ name = "addIntersection" ∨ name = "addMatch" then
    match asUnionFilter m1.heap filter with
    | some unionFilter =>
      let childFilter : Filter :=
        if name = "addUnion" then
          { newUnionFilter (some unionFilter) with name := "New Union" }
        else if name = "addIntersection" then
          { newIntersectionFilter (some unionFilter) with name := "New Intersection" }
        else newMatchFilter Exact "foo" "bar" (some unionFilter)
      let c := m1.heap.length
      { m1 with heap := appendChild (m1.heap ++ [childFilter]) unionFilter c }
    | none => m1
  else m1

/-! ## Reading the filter document -/

/-- A node of the parsed document: an element with its tag, attributes and child nodes, a
text node, or a comment. -/
inductive QDomNode where
  | element (tagName : String) (attributes : List (String × String)) (childNodes : List QDomNode)
  | characterData (data : String)
  | comment (data : String)

/-- Test `QDomNode::isElement`. -/
def QDomNode.isElement : QDomNode → Bool
  | .element _ _ _ => true
  | _ => false

/-- Accessor `QDomElement::tagName`; the null element (which `toElement` gives for a node
that is no element) has an empty tag. -/
def QDomNode.tagName : QDomNode → String
  | .element t _ _ => t
  | _ => ""

mutual
/-- Accessor `QDomElement::text`: the text of the text nodes below the element, in document
order; on a text node, its data. -/
def QDomNode.text : QDomNode → String
  | .element _ _ cs => textOfNodes cs
  | .characterData d => d
  | .comment _ => ""
/-- The concatenated text of a list of sibling nodes. -/
def textOfNodes : List QDomNode → String
  | [] => ""
  | n :: rest => n.text ++ textOfNodes rest
end

/-- Accessor `QDomElement::firstChildElement(tagName)` on the child nodes of an element: the
first child that is an element with that tag, if any. -/
def firstChildElement (cs : List QDomNode) (tag : String) : Option QDomNode :=
  cs.find? (fun n => n.isElement && n.tagName == tag)

/-- The text of a possibly null element (`QDomElement::text` of a null element is empty). -/
def elementText : Option QDomNode → String
  | some n => n.text
  | none => ""

/-- Accessor `QDomElement::attribute(name, defValue)`. -/
def elementAttribute (attrs : List (String × String)) (name defValue : String) : String :=
  (attrs.lookup name).getD defValue

/-- The first part of `FilterEditModel::readFilter`: the node constructed for an element with
the given tag, attributes and child nodes, before its enabled flag and name are set;
`none` for an unknown tag, where the function returns early. -/
def constructFilter (name : String) (attrs : List (String × String)) (cs : List QDomNode)
    (parent : Option Ptr) : Option Filter :=
  if name = "Union" then some (newUnionFilter parent)
  else if name = "Intersection" then some (newIntersectionFilter parent)
  else if name = "Match" then
    let keyElement := firstChildElement cs "Key"
    let matchElement := firstChildElement cs "Value"
    let matchTypeName := elementAttribute attrs "type" "Exact"
    let matchType :=
      if matchTypeName = "Exact" then Exact
      else if matchTypeName = "Wildcard" then Wildcard
      else if matchTypeName = "Regex" then Regex
      else Exact
    some (newMatchFilter matchType (elementText keyElement) (elementText matchElement) parent)
  else if name = "Default" then some (newDefaultFilter parent)
  else none

mutual
/-- Member `FilterEditModel::readFilter`: reads one element below `parent` and returns the
new heap.  Called on a node that is no element it sees the null element, whose tag is
unknown. -/
def readFilter : QDomNode → Option Ptr → Heap → Heap
  | .element name attrs cs, parent, h =>
    match constructFilter name attrs cs parent with
    | none => h
    | some f =>
      let childFilter := h.length
      let enabled := elementAttribute attrs "active" "true"
      let childName := firstChildElement cs "Name"
      let f1 := { f with enabled := (if enabled = "true" then true else false),
                         name := elementText childName }
      let h1 := h ++ [f1]
      let h2 := if f1.isFilterList then readChildNodes cs childFilter h1 else h1
      match asFilterList h2 parent with
      | some parentFilter => appendChild h2 parentFilter childFilter
      | none => h2
  | .characterData _, _, h => h
  | .comment _, _, h => h
/-- The loop of `readFilter` over the child nodes of a list element: every child node that
is an element is read below `childFilter`. -/
def readChildNodes : List QDomNode → Ptr → Heap → Heap
  | [], _, h => h
  | childNode :: rest, childFilter, h =>
    readChildNodes rest childFilter
      (if childNode.isElement then readFilter childNode (some childFilter) h else h)
end

/-! ## Filter trees as values -/

/-- A filter tree as a value, without pointers: the fields of a node and the trees of its
children in order. -/
inductive FilterTree where
  | node (kind : FilterKind) (name : String) (enabled : Bool) (type : Int) (key value : String)
      (children : List FilterTree)

mutual
/-- Whether the heap holds the tree `t` at pointer `p`: the object at `p` has the fields of the
root of `t` and the given parent pointer, its child pointers hold the child trees in
order with `p` as their parent, and no node of the copy lies below the address `lo`. -/
def holdsTree (lo : Nat) (h : Heap) : Option Ptr → Ptr → FilterTree → Bool
  | par, p, .node kind name enabled type key value ts =>
    match h[p]? with
    | some f =>
      decide (lo ≤ p) && decide (f.parent = par) && decide (f.kind = kind) &&
      decide (f.name = name) && decide (f.enabled = enabled) && decide (f.type = type) &&
      decide (f.key = key) && decide (f.value = value) &&
      holdsTrees lo h (some p) f.children ts
    | none => false
/-- Whether the pointers of a list hold the trees of a list, one by one. -/
def holdsTrees (lo : Nat) (h : Heap) : Option Ptr → List Ptr → List FilterTree → Bool
  | _, [], [] => true
  | par, p :: ps, t :: ts => holdsTree lo h par p t && holdsTrees lo h par ps ts
  | _, _ :: _, [] => false
  | _, [], _ :: _ => false
end

/-- Whether a document node is a filter element: an element whose tag is one of `Union`,
`Intersection`, `Match`, `Default`. -/
def QDomNode.isFilterElement (n : QDomNode) : Bool :=
  n.isElement &&
    (n.tagName == "Union" || n.tagName == "Intersection" || n.tagName == "Match" ||
      n.tagName == "Default")

mutual
/-- The filter tree a document element denotes, following the description of the serialized
filter document: the tag gives the kind; the `active` attribute (default `"true"`) gives the
enabled flag; the `Name` child element gives the name; a `Match` element takes its key and
value from the `Key` and `Value` child elements and its type from the `type` attribute
(`Wildcard`, `Regex`, anything else is `Exact`); a `Union` or `Intersection` element has
the trees of its filter child elements as children.  A node that is no filter element
denotes no tree. -/
def readTree : QDomNode → Option FilterTree
  | .element tag attrs cs =>
    let enabled := decide ((attrs.lookup "active").getD "true" = "true")
    let name := elementText (firstChildElement cs "Name")
    if tag = "Union" then
      some (FilterTree.node FilterKind.Union name enabled Exact "" "" (readTrees cs))
    else if tag = "Intersection" then
      some (FilterTree.node FilterKind.Intersection name enabled Exact "" "" (readTrees cs))
    else if tag = "Match" then
      let type :=
        if attrs.lookup "type" = some "Wildcard" then Wildcard
        else if attrs.lookup "type" = some "Regex" then Regex
        else Exact
      some (FilterTree.node FilterKind.Match name enabled type
        (elementText (firstChildElement cs "Key")) (elementText (firstChildElement cs "Value")) [])
    else if tag = "Default" then
      some (FilterTree.node FilterKind.Default name enabled Exact "" "" [])
    else none
  | .characterData _ => none
  | .comment _ => none
/-- The trees denoted by the filter elements among a list of sibling nodes, in document
order. -/
def readTrees : List QDomNode → List FilterTree
  | [] => []
  | n :: rest =>
    match readTree n with
    | some t => t :: readTrees rest
    | none => readTrees rest
end

/-- The last step of `readFilter`, named for the proofs: the new node `c` is appended to the
parent when the parent is a `FilterList`. -/
def attach (h : Heap) (par : Option Ptr) (c : Ptr) : Heap :=
  match asFilterList h par with
  | some parentFilter => appendChild h parentFilter c
  | none => h

/-! ## A sample tree

The root union holds an intersection `A` and a match filter; `A` holds a match filter, a
default filter and a union. -/

/-- The heap of the sample tree; node 0 is the root. -/
def sampleHeap : Heap :=
  [ { newUnionFilter none with name := "root", children := [1, 2] },
    { newIntersectionFilter (some 0) with name := "A", children := [3, 4, 5] },
    { newMatchFilter Exact "k" "v" (some 0) with name := "m" },
    { newMatchFilter Wildcard "k3" "v3" (some 1) with name := "m3" },
    { newDefaultFilter (some 1) with name := "d4" },
    { newUnionFilter (some 1) with name := "u5" } ]

/-- The sample model: the sample tree with an empty undo stack. -/
def sampleModel : FilterEditModel :=
  { heap := sampleHeap, mRootItem := 0, mUndoStack := { commands := [], index := 0 } }

/-- The index of the intersection `A`, the first child of the root. -/
def sampleIndexA : QModelIndex := index sampleModel 0 0 QModelIndex.invalid

/-! ## A sample document -/

/-- A `Match` element with a type, an `active` attribute and the three child elements. -/
def sampleMatchNodes : List QDomNode :=
  [ QDomNode.element "Name" [] [QDomNode.characterData "m1"],
    QDomNode.element "Key" [] [QDomNode.characterData "K"],
    QDomNode.element "Value" [] [QDomNode.characterData "V"] ]

/-- The child nodes of the sample `Union` element: text, a name, a match filter, an element
with an unknown tag, a comment, an intersection with a default filter, a default filter. -/
def sampleChildNodes : List QDomNode :=
  [ QDomNode.characterData "\n",
    QDomNode.element "Name" [] [QDomNode.characterData "top"],
    QDomNode.element "Match" [("type", "Regex"), ("active", "false")] sampleMatchNodes,
    QDomNode.element "Bogus" [] [QDomNode.element "Match" [] []],
    QDomNode.comment "c",
    QDomNode.element "Intersection" []
      [QDomNode.element "Default" [] [], QDomNode.element "Name" [] [QDomNode.characterData "in"]],
    QDomNode.element "Default" [] [] ]

/-- The heap in which `load` starts reading: the new root alone. -/
def sampleRoot : Heap := [{ newUnionFilter none with name := "root" }]

/-! ## Theorems -/

/-- C1, evaluated on the code: on the intersection `A` of the sample tree, which has the three
children 3, 4, 5, `removeRows(0, 2, A)` returns true but removes only the child at row 0:
the children 4 and 5 remain, where removing two rows would leave the child 5 alone. -/
theorem removeRows_count_two_removes_one :
    sampleIndexA.internalPointer = some 1 ∧
    (sampleModel.heap[1]?).map Filter.children = some [3, 4, 5] ∧
    (removeRows sampleModel 0 2 sampleIndexA).1 = true ∧
    ((removeRows sampleModel 0 2 sampleIndexA).2.heap[1]?).map Filter.children = some [4, 5] := by
  decide

/-- C2, evaluated on the code: the intersection `A` is a child of the root, and its index is
valid; `executeCommand("delete", A)` calls `removeRows` with the invalid parent index, whose
internal pointer is null, and the tree is left as it was: `A` is still the first child of
the root. -/
theorem executeCommand_delete_top_level_unchanged :
    sampleIndexA.isValid = true ∧
    parent sampleModel sampleIndexA = QModelIndex.invalid ∧
    (removeRows sampleModel sampleIndexA.row 1 (parent sampleModel sampleIndexA)).1 = false ∧
    executeCommand sampleModel "delete" sampleIndexA = sampleModel := by
  decide

/-- C3, evaluated on the code: the node `A` of the sample tree is an `IntersectionFilter`, so
a `FilterList`, and `data` offers the three add actions for it; yet `executeCommand` with
any of them leaves the tree as it was (the cast to `UnionFilter` fails), so no child is
appended. -/
theorem executeCommand_add_on_intersection_unchanged :
    asFilterList sampleModel.heap sampleIndexA.internalPointer = some 1 ∧
    data 32 sampleModel sampleIndexA 32 =
      QVariant.stringList ["addUnion", "addIntersection", "addMatch", "-", "delete"] ∧
    executeCommand sampleModel "addUnion" sampleIndexA = sampleModel ∧
    executeCommand sampleModel "addIntersection" sampleIndexA = sampleModel ∧
    executeCommand sampleModel "addMatch" sampleIndexA = sampleModel := by
  decide

/-- C4, evaluated on the code: editing the name of `A` through column 0 with the edit role
succeeds and renames the node, but pushes nothing on the undo stack, so that undoing
right after the edit does not restore the former name. -/
theorem setData_name_edit_not_undoable :
    (setData sampleModel sampleIndexA (QVariant.string "B") EditRole).1 = true ∧
    (sampleModel.heap[1]?).map Filter.name = some "A" ∧
    ((setData sampleModel sampleIndexA (QVariant.string "B") EditRole).2.heap[1]?).map
        Filter.name = some "B" ∧
    (setData sampleModel sampleIndexA (QVariant.string "B") EditRole).2.mUndoStack =
      sampleModel.mUndoStack ∧
    ((undo (setData sampleModel sampleIndexA (QVariant.string "B") EditRole).2).heap[1]?).map
        Filter.name = some "B" := by
  decide

/-- C10, evaluated on the code: for the valid index of `A` (row 0 below the root) and its
child at row 1, `parent(index(1, 0, A))` points to `A` but carries the row 1 of the child
instead of the row 0 of `A`, so it is not the index of `A`. -/
theorem parent_of_index_wrong_row :
    sampleIndexA = createIndex 0 0 (some 1) ∧
    rowCount sampleModel sampleIndexA = 3 ∧
    parent sampleModel (index sampleModel 1 0 sampleIndexA) = createIndex 1 0 (some 1) ∧
    parent sampleModel (index sampleModel 1 0 sampleIndexA) ≠ sampleIndexA := by
  decide

/-- C6, refuted as stated: for the `FilterList` node `A` the list of actions is not
`[addUnion, addIntersection, addMatch, delete]`; it has a fifth entry, the separator. -/
theorem data_item_commands_has_separator :
    sampleIndexA.isValid = true ∧ sampleIndexA.column = 0 ∧
    asFilterList sampleModel.heap sampleIndexA.internalPointer = some 1 ∧
    data 32 sampleModel sampleIndexA 32 ≠
      QVariant.stringList ["addUnion", "addIntersection", "addMatch", "delete"] := by
  decide

/-- C6, amended: for every valid index at column 0, the list that `data` returns for the
item-commands role is exactly `[addUnion, addIntersection, addMatch, -, delete]` when the
node is a `FilterList` and exactly `[delete]` otherwise.  The role value is any one that
differs from the display and check-state roles, which come first in the `switch`. -/
theorem data_item_commands (itemCommandsRole : Int) (m : FilterEditModel) (idx : QModelIndex)
    (f : Filter)
    (hrole1 : itemCommandsRole ≠ DisplayRole) (hrole2 : itemCommandsRole ≠ CheckStateRole)
    (hvalid : idx.isValid = true) (hcol : idx.column = 0)
    (hf : deref m.heap idx.internalPointer = some f) :
    data itemCommandsRole m idx itemCommandsRole =
      QVariant.stringList
        (if f.isFilterList then ["addUnion", "addIntersection", "addMatch", "-", "delete"]
         else ["delete"]) := by
  unfold data
  simp only [hvalid, hf, hcol, hrole1, hrole2]
  cases hl : f.isFilterList <;> simp

/-- Witness for the amended C6 on the sample tree: the intersection `A` and the match
filter that is the second child of the root. -/
theorem data_item_commands_witness :
    data 32 sampleModel sampleIndexA 32 =
      QVariant.stringList ["addUnion", "addIntersection", "addMatch", "-", "delete"] ∧
    data 32 sampleModel (index sampleModel 1 0 QModelIndex.invalid) 32 =
      QVariant.stringList ["delete"] :=
  ⟨data_item_commands 32 sampleModel sampleIndexA
      { newIntersectionFilter (some 0) with name := "A", children := [3, 4, 5] }
      (by decide) (by decide) (by decide) (by decide) (by decide),
   data_item_commands 32 sampleModel (index sampleModel 1 0 QModelIndex.invalid)
      { newMatchFilter Exact "k" "v" (some 0) with name := "m" }
      (by decide) (by decide) (by decide) (by decide) (by decide)⟩

/-- C7: for every node that is not a `MatchFilter`, every column from 1 to 3, every value
and every role, `setData` returns false and leaves the whole model (every node of the
tree and the undo stack) unchanged. -/
theorem setData_non_match_rejected (m : FilterEditModel) (idx : QModelIndex) (p : Ptr)
    (f : Filter) (value : QVariant) (role : Int)
    (hptr : idx.internalPointer = some p) (hp : m.heap[p]? = some f)
    (hkind : f.kind ≠ FilterKind.Match)
    (hcol : 1 ≤ idx.column ∧ idx.column ≤ 3) :
    setData m idx value role = (false, m) := by
  have hc0 : idx.column ≠ 0 := by omega
  have hcast : asMatchFilter m.heap (some p) = none := by
    simp [asMatchFilter, hp, hkind]
  unfold setData
  by_cases hv : idx.isValid = true
  · simp only [hv, hptr, hc0, hcast]
    by_cases hr : role = EditRole <;> simp [hr]
  · simp [hv]

/-- Witness for C7 on the sample tree: the key column of the intersection `A` with the
edit role. -/
theorem setData_non_match_rejected_witness :
    setData sampleModel (createIndex 0 2 (some 1)) (QVariant.string "x") EditRole =
      (false, sampleModel) :=
  setData_non_match_rejected sampleModel (createIndex 0 2 (some 1)) 1
    { newIntersectionFilter (some 0) with name := "A", children := [3, 4, 5] }
    (QVariant.string "x") EditRole (by decide) (by decide) (by decide) (by decide)

/-! ## Reading the document: heap lemmas -/

theorem update_length (h : Heap) (p : Nat) (g : Filter → Filter) :
    (update h p g).length = h.length := by
  unfold update
  cases h[p]? <;> simp

theorem update_getElem? (h : Heap) (p q : Nat) (g : Filter → Filter) :
    (update h p g)[q]? = if q = p then (h[q]?).map g else h[q]? := by
  unfold update
  by_cases hqp : q = p
  · subst hqp
    cases hq : h[q]? with
    | none => simp [hq]
    | some f =>
      have hlt : q < h.length := by
        rcases Nat.lt_or_ge q h.length with h1 | h1
        · exact h1
        · rw [List.getElem?_eq_none h1] at hq; cases hq
      simp [List.getElem?_set, hlt]
  · cases hp : h[p]? with
    | none => simp [hqp]
    | some f =>
      have : p ≠ q := fun e => hqp e.symm
      simp [List.getElem?_set, this, hqp]

theorem holdsTree_iff (lo : Nat) (h : Heap) (par : Option Nat) (p : Nat) (kind : FilterKind)
    (name : String) (enabled : Bool) (type : Int) (key value : String) (ts : List FilterTree) :
    holdsTree lo h par p (FilterTree.node kind name enabled type key value ts) = true ↔
      ∃ f, h[p]? = some f ∧ lo ≤ p ∧ f.parent = par ∧ f.kind = kind ∧ f.name = name ∧
        f.enabled = enabled ∧ f.type = type ∧ f.key = key ∧ f.value = value ∧
        holdsTrees lo h (some p) f.children ts = true := by
  rw [holdsTree]
  cases hp : h[p]? with
  | none => simp
  | some f =>
    simp only [Bool.and_eq_true, decide_eq_true_eq, Option.some.injEq, exists_eq_left']
    tauto

mutual
theorem holdsTree_frame (lo lo2 : Nat) (h h2 : Heap) (hlo : lo2 ≤ lo)
    (hframe : ∀ q f, lo ≤ q → h[q]? = some f → h2[q]? = some f) :
    ∀ (par : Option Nat) (p : Nat) (t : FilterTree),
      holdsTree lo h par p t = true → holdsTree lo2 h2 par p t = true
  | par, p, .node kind name enabled type key value ts => by
    intro H
    rw [holdsTree_iff] at H ⊢
    obtain ⟨f, hp, hlop, h1, h2', h3, h4, h5, h6, h7, hts⟩ := H
    exact ⟨f, hframe p f hlop hp, le_trans hlo hlop, h1, h2', h3, h4, h5, h6, h7,
      holdsTrees_frame lo lo2 h h2 hlo hframe (some p) f.children ts hts⟩
theorem holdsTrees_frame (lo lo2 : Nat) (h h2 : Heap) (hlo : lo2 ≤ lo)
    (hframe : ∀ q f, lo ≤ q → h[q]? = some f → h2[q]? = some f) :
    ∀ (par : Option Nat) (ps : List Nat) (ts : List FilterTree),
      holdsTrees lo h par ps ts = true → holdsTrees lo2 h2 par ps ts = true
  | _, [], [] => by simp [holdsTrees]
  | par, p :: ps, t :: ts => by
    intro H
    simp only [holdsTrees, Bool.and_eq_true] at H ⊢
    exact ⟨holdsTree_frame lo lo2 h h2 hlo hframe par p t H.1,
      holdsTrees_frame lo lo2 h h2 hlo hframe par ps ts H.2⟩
  | _, _ :: _, [] => by simp [holdsTrees]
  | _, [], _ :: _ => by simp [holdsTrees]
end

theorem holdsTrees_append (lo : Nat) (h : Heap) (par : Option Nat) :
    ∀ (ps qs : List Nat) (ts us : List FilterTree),
      holdsTrees lo h par ps ts = true → holdsTrees lo h par qs us = true →
      holdsTrees lo h par (ps ++ qs) (ts ++ us) = true
  | [], qs, [], us => by simp [holdsTrees]
  | p :: ps, qs, t :: ts, us => by
    intro H1 H2
    simp only [holdsTrees, Bool.and_eq_true, List.cons_append] at H1 ⊢
    exact ⟨H1.1, holdsTrees_append lo h par ps qs ts us H1.2 H2⟩
  | _ :: _, _, [], _ => by simp [holdsTrees]
  | [], _, _ :: _, _ => by simp [holdsTrees]

theorem holdsTrees_length (lo : Nat) (h : Heap) (par : Option Nat) :
    ∀ (ps : List Nat) (ts : List FilterTree),
      holdsTrees lo h par ps ts = true → ps.length = ts.length
  | [], [] => by simp
  | p :: ps, t :: ts => by
    intro H
    simp only [holdsTrees, Bool.and_eq_true] at H
    simp [holdsTrees_length lo h par ps ts H.2]
  | _ :: _, [] => by simp [holdsTrees]
  | [], _ :: _ => by simp [holdsTrees]

theorem readTree_isSome_iff (n : QDomNode) : (readTree n).isSome = n.isFilterElement := by
  cases n with
  | element tag attrs cs =>
    simp only [readTree, QDomNode.isFilterElement, QDomNode.isElement, QDomNode.tagName]
    by_cases h1 : tag = "Union"
    · simp [h1]
    by_cases h2 : tag = "Intersection"
    · simp [h2]
    by_cases h3 : tag = "Match"
    · simp [h3]
    by_cases h4 : tag = "Default"
    · simp [h4]
    simp [h1, h2, h3, h4]
  | characterData d => simp [readTree, QDomNode.isFilterElement, QDomNode.isElement]
  | comment d => simp [readTree, QDomNode.isFilterElement, QDomNode.isElement]

theorem readTrees_eq_filterMap :
    ∀ cs : List QDomNode,
      readTrees cs = (cs.filter QDomNode.isFilterElement).filterMap readTree
  | [] => by simp [readTrees]
  | n :: rest => by
    have ih := readTrees_eq_filterMap rest
    have hn := readTree_isSome_iff n
    rw [readTrees]
    cases hr : readTree n with
    | none =>
      rw [hr] at hn
      have : n.isFilterElement = false := by simpa using hn.symm
      simp [List.filter_cons, this, ih]
    | some t =>
      rw [hr] at hn
      have : n.isFilterElement = true := by simpa using hn.symm
      simp [List.filter_cons, this, ih, List.filterMap_cons, hr]

theorem readTrees_length (cs : List QDomNode) :
    (readTrees cs).length = (cs.filter QDomNode.isFilterElement).length := by
  induction cs with
  | nil => simp [readTrees]
  | cons n rest ih =>
    have hn := readTree_isSome_iff n
    rw [readTrees]
    cases hr : readTree n with
    | none =>
      rw [hr] at hn
      have : n.isFilterElement = false := by simpa using hn.symm
      simp [List.filter_cons, this, ih]
    | some t =>
      rw [hr] at hn
      have : n.isFilterElement = true := by simpa using hn.symm
      simp [List.filter_cons, this, ih]

theorem constructFilter_fields (tag : String) (attrs : List (String × String))
    (cs : List QDomNode) (par : Option Nat) (f : Filter)
    (hf : constructFilter tag attrs cs par = some f) :
    f.parent = par ∧ f.children = [] := by
  unfold constructFilter at hf
  split_ifs at hf <;> simp at hf <;> subst hf <;>
    simp [newUnionFilter, newIntersectionFilter, newMatchFilter, newDefaultFilter]

theorem matchType_cases (x : Option String) :
    (if x.getD "Exact" = "Exact" then Exact
      else if x.getD "Exact" = "Wildcard" then Wildcard
      else if x.getD "Exact" = "Regex" then Regex else Exact) =
    (if x = some "Wildcard" then Wildcard else if x = some "Regex" then Regex else Exact) := by
  cases x with
  | none => simp [Exact]
  | some v =>
    by_cases hv1 : v = "Exact"
    · simp [hv1]
    by_cases hv2 : v = "Wildcard"
    · simp [hv2]
    by_cases hv3 : v = "Regex"
    · simp [hv3]
    simp [hv1, hv2, hv3]

/-- The tree of an element, in terms of the node that `readFilter` constructs for it. -/
theorem readTree_element (tag : String) (attrs : List (String × String))
    (cs : List QDomNode) (par : Option Nat) :
    readTree (QDomNode.element tag attrs cs) =
      (constructFilter tag attrs cs par).map (fun f =>
        FilterTree.node f.kind (elementText (firstChildElement cs "Name"))
          (if elementAttribute attrs "active" "true" = "true" then true else false)
          f.type f.key f.value (if f.isFilterList then readTrees cs else [])) := by
  simp only [readTree, constructFilter, elementAttribute]
  by_cases h1 : tag = "Union"
  · simp [h1, newUnionFilter, Filter.isFilterList]
  by_cases h2 : tag = "Intersection"
  · simp [h2, newIntersectionFilter, Filter.isFilterList]
  by_cases h3 : tag = "Match"
  · subst h3
    have hM1 : ("Match" = "Union") = False := by decide
    have hM2 : ("Match" = "Intersection") = False := by decide
    simp only [hM1, hM2, if_false, if_true, Option.map_some']
    simp only [newMatchFilter, Filter.isFilterList, matchType_cases]
    simp
  by_cases h4 : tag = "Default"
  · simp [h4, newDefaultFilter, Filter.isFilterList]
  simp [h1, h2, h3, h4]

theorem asFilterList_some (h : Heap) (p : Nat) (fp : Filter) (hp : h[p]? = some fp) :
    asFilterList h (some p) = if fp.isFilterList then some p else none := by
  simp [asFilterList, hp]

theorem asFilterList_eq_some (h : Heap) (par : Option Nat) (pf : Nat)
    (hc : asFilterList h par = some pf) : par = some pf := by
  unfold asFilterList at hc
  cases par with
  | none => simp at hc
  | some q =>
    cases hq : h[q]? with
    | none => simp [hq] at hc
    | some f =>
      simp only [hq] at hc
      split_ifs at hc
      simpa using hc

theorem attach_length (h : Heap) (par : Option Nat) (c : Nat) :
    (attach h par c).length = h.length := by
  unfold attach
  cases asFilterList h par with
  | none => rfl
  | some pf => simp [appendChild, update_length]

theorem attach_getElem?_of_ne (h : Heap) (par : Option Nat) (c q : Nat)
    (hqc : q ≠ c) (hqp : some q ≠ par) : (attach h par c)[q]? = h[q]? := by
  unfold attach
  cases hc : asFilterList h par with
  | none => rfl
  | some pf =>
    have hpar := asFilterList_eq_some h par pf hc
    have hqpf : q ≠ pf := by
      intro e
      exact hqp (by rw [hpar, e])
    simp [appendChild, update_getElem?, hqc, hqpf]

theorem attach_getElem?_parent (h : Heap) (p c : Nat) (fp : Filter)
    (hpc : p ≠ c) (hp : h[p]? = some fp) :
    (attach h (some p) c)[p]? =
      some { fp with children := fp.children ++ (if fp.isFilterList then [c] else []) } := by
  unfold attach
  rw [asFilterList_some h p fp hp]
  cases hl : fp.isFilterList with
  | false => simp [hp]
  | true => simp [appendChild, update_getElem?, hpc, hp]

theorem attach_getElem?_child (h : Heap) (par : Option Nat) (c : Nat) (fc : Filter)
    (hc : h[c]? = some fc) (hparent : fc.parent = par) (hne : par ≠ some c) :
    (attach h par c)[c]? = some fc := by
  unfold attach
  cases ha : asFilterList h par with
  | none => exact hc
  | some pf =>
    have hpar := asFilterList_eq_some h par pf ha
    have hcpf : c ≠ pf := by
      intro e
      exact hne (by rw [hpar, e])
    have hfc : { fc with parent := some pf } = fc := by
      rw [← hpar, ← hparent]
    simp [appendChild, update_getElem?, hcpf, hc, hfc]

theorem readFilter_element_eq (tag : String) (attrs : List (String × String))
    (cs : List QDomNode) (par : Option Nat) (h : Heap) :
    readFilter (QDomNode.element tag attrs cs) par h =
      match constructFilter tag attrs cs par with
      | none => h
      | some f =>
        attach
          (if f.isFilterList then
            readChildNodes cs h.length
              (h ++ [{ f with
                enabled := (if elementAttribute attrs "active" "true" = "true" then true else false),
                name := elementText (firstChildElement cs "Name") }])
           else
            h ++ [{ f with
                enabled := (if elementAttribute attrs "active" "true" = "true" then true else false),
                name := elementText (firstChildElement cs "Name") }])
          par h.length := by
  rw [readFilter]
  cases constructFilter tag attrs cs par with
  | none => rfl
  | some f => simp [attach, Filter.isFilterList]

theorem readChildNodes_cons (n : QDomNode) (rest : List QDomNode) (c : Nat) (h : Heap) :
    readChildNodes (n :: rest) c h = readChildNodes rest c (readFilter n (some c) h) := by
  rw [readChildNodes]
  cases n <;> simp [QDomNode.isElement, readFilter]

mutual
/-- What `readFilter` does to the heap: it only appends nodes, touches no old node but the
parent, appends the new node to the children of a `FilterList` parent exactly when the
element is a filter element, and the new node holds the tree the element denotes. -/
theorem readFilter_effect :
    ∀ (e : QDomNode) (par : Option Nat) (h : Heap), (∀ p, par = some p → p < h.length) →
      h.length ≤ (readFilter e par h).length ∧
      (∀ q, q < h.length → some q ≠ par → (readFilter e par h)[q]? = h[q]?) ∧
      (∀ p fp, par = some p → h[p]? = some fp →
        (readFilter e par h)[p]? = some { fp with children := fp.children ++
          (if fp.isFilterList && (readTree e).isSome then [h.length] else []) }) ∧
      (∀ t, readTree e = some t →
        holdsTree h.length (readFilter e par h) par h.length t = true)
  | .element tag attrs cs, par, h, hpar => by
    rw [readFilter_element_eq, readTree_element tag attrs cs par]
    cases hcf : constructFilter tag attrs cs par with
    | none =>
      refine ⟨le_refl _, fun _ _ _ => rfl, ?_, ?_⟩
      · intro p fp _ hp
        simp [hp]
      · intro t ht
        simp at ht
    | some f0 =>
      obtain ⟨hf0par, hf0ch⟩ := constructFilter_fields tag attrs cs par f0 hcf
      simp only [Option.map_some', Option.isSome_some, Bool.and_true]
      generalize hen : (if elementAttribute attrs "active" "true" = "true" then true else false)
        = en
      generalize hnm : elementText (firstChildElement cs "Name") = nm
      -- the node after its flag and name are set, and the heap it is allocated in
      have hc1 : (h ++ [{ f0 with enabled := en, name := nm }])[h.length]? =
          some { f0 with enabled := en, name := nm } := List.getElem?_concat_length h _
      have hlen1 : (h ++ [{ f0 with enabled := en, name := nm }]).length = h.length + 1 := by
        simp
      -- the heap after the children are read
      have hX : ∀ h2 : Heap,
          h2 = (if f0.isFilterList then
                  readChildNodes cs h.length (h ++ [{ f0 with enabled := en, name := nm }])
                else h ++ [{ f0 with enabled := en, name := nm }]) →
          h.length + 1 ≤ h2.length ∧
          (∀ q, q < h.length → h2[q]? = h[q]?) ∧
          ∃ new, h2[h.length]? = some { f0 with enabled := en, name := nm, children := new } ∧
            holdsTrees (h.length + 1) h2 (some h.length) new
              (if f0.isFilterList then readTrees cs else []) = true := by
        intro h2 hh2
        cases hl : f0.isFilterList with
        | false =>
          rw [hl] at hh2
          simp only [Bool.false_eq_true, if_false] at hh2
          subst hh2
          refine ⟨by simp, ?_, [], ?_, by simp [holdsTrees]⟩
          · intro q hq
            exact List.getElem?_append_left hq
          · rw [hc1, ← hf0ch]
        | true =>
          rw [hl] at hh2
          simp only [if_true] at hh2
          subst hh2
          have hl1 : ({ f0 with enabled := en, name := nm } : Filter).isFilterList = true := hl
          obtain ⟨ha, hb, new, hcnew, hts⟩ :=
            readChildNodes_effect cs h.length (h ++ [{ f0 with enabled := en, name := nm }])
              { f0 with enabled := en, name := nm } hc1 hl1
          rw [hlen1] at ha hb hts
          refine ⟨ha, ?_, new, ?_, hts⟩
          · intro q hq
            rw [hb q (by omega) (by omega)]
            exact List.getElem?_append_left hq
          · rw [hcnew]
            simp [hf0ch]
      obtain ⟨hlen2, hold2, new, hc2, hts2⟩ := hX _ rfl
      generalize (if f0.isFilterList then
                  readChildNodes cs h.length (h ++ [{ f0 with enabled := en, name := nm }])
                else h ++ [{ f0 with enabled := en, name := nm }]) = h2 at hlen2 hold2 hc2 hts2 ⊢
      have hparne : par ≠ some h.length := by
        intro e
        have := hpar h.length e
        omega
      refine ⟨?_, ?_, ?_, ?_⟩
      · rw [attach_length]; omega
      · intro q hq hqp
        rw [attach_getElem?_of_ne h2 par h.length q (by omega) hqp]
        exact hold2 q hq
      · intro p fp hp hfp
        subst hp
        have hplt : p < h.length := hpar p rfl
        have hp2 : h2[p]? = some fp := by rw [hold2 p hplt]; exact hfp
        rw [attach_getElem?_parent h2 p h.length fp (by omega) hp2]
      · intro t ht
        simp only [Option.some.injEq] at ht
        subst ht
        rw [holdsTree_iff]
        refine ⟨{ f0 with enabled := en, name := nm, children := new }, ?_, le_refl _, hf0par,
          rfl, rfl, rfl, rfl, rfl, rfl, ?_⟩
        · exact attach_getElem?_child h2 par h.length _ hc2 hf0par hparne
        · apply holdsTrees_frame (h.length + 1) h.length h2 (attach h2 par h.length)
            (by omega) _ (some h.length) new _ hts2
          intro q f hq hqf
          rw [attach_getElem?_of_ne h2 par h.length q (by omega)]
          · exact hqf
          · intro e
            have := hpar q e.symm
            omega
  | .characterData _, par, h, _ => by
    refine ⟨le_refl _, fun _ _ _ => rfl, ?_, ?_⟩
    · intro p fp _ hp
      simp [readFilter, readTree, hp]
    · intro t ht
      simp [readTree] at ht
  | .comment _, par, h, _ => by
    refine ⟨le_refl _, fun _ _ _ => rfl, ?_, ?_⟩
    · intro p fp _ hp
      simp [readFilter, readTree, hp]
    · intro t ht
      simp [readTree] at ht
/-- What the loop over the child nodes does to the heap: it only appends nodes, touches no
old node but the list `c`, and appends to the children of `c` pointers that hold the trees
of the filter elements among the child nodes, in document order. -/
theorem readChildNodes_effect :
    ∀ (cs : List QDomNode) (c : Nat) (h : Heap) (fc : Filter),
      h[c]? = some fc → fc.isFilterList = true →
      h.length ≤ (readChildNodes cs c h).length ∧
      (∀ q, q < h.length → q ≠ c → (readChildNodes cs c h)[q]? = h[q]?) ∧
      ∃ new, (readChildNodes cs c h)[c]? = some { fc with children := fc.children ++ new } ∧
        holdsTrees h.length (readChildNodes cs c h) (some c) new (readTrees cs) = true
  | [], c, h, fc, hc, _ => by
    refine ⟨le_refl _, fun _ _ _ => rfl, [], ?_, ?_⟩
    · simp [readChildNodes, hc]
    · simp [readTrees, holdsTrees]
  | n :: rest, c, h, fc, hc, hl => by
    have hclt : c < h.length := by
      rcases Nat.lt_or_ge c h.length with h1 | h1
      · exact h1
      · rw [List.getElem?_eq_none h1] at hc; cases hc
    obtain ⟨ha1, hb1, hc1, hd1⟩ := readFilter_effect n (some c) h
      (fun p hp => by cases hp; exact hclt)
    have hc1' := hc1 c fc rfl hc
    rw [hl, Bool.true_and] at hc1'
    have hl1 : ({ fc with children := fc.children ++
        (if (readTree n).isSome then [h.length] else []) } : Filter).isFilterList = true := hl
    obtain ⟨ha2, hb2, new2, hc2, hts2⟩ :=
      readChildNodes_effect rest c (readFilter n (some c) h) _ hc1' hl1
    rw [readChildNodes_cons]
    refine ⟨le_trans ha1 ha2, ?_, (if (readTree n).isSome then [h.length] else []) ++ new2,
      ?_, ?_⟩
    · intro q hq hqc
      rw [hb2 q (by omega) hqc]
      exact hb1 q hq (by simpa using hqc)
    · rw [hc2]
      simp [List.append_assoc]
    · have hframe : ∀ q f, h.length ≤ q → (readFilter n (some c) h)[q]? = some f →
          (readChildNodes rest c (readFilter n (some c) h))[q]? = some f := by
        intro q f hq hqf
        have hqlt : q < (readFilter n (some c) h).length := by
          rcases Nat.lt_or_ge q (readFilter n (some c) h).length with h1 | h1
          · exact h1
          · rw [List.getElem?_eq_none h1] at hqf; cases hqf
        rw [hb2 q hqlt (by omega)]
        exact hqf
      have hrest : holdsTrees h.length (readChildNodes rest c (readFilter n (some c) h))
          (some c) new2 (readTrees rest) = true :=
        holdsTrees_frame _ h.length _ _ ha1 (fun q f _ hqf => hqf) (some c) new2 _ hts2
      rw [readTrees]
      cases hr : readTree n with
      | none => simpa [hr] using hrest
      | some t =>
        have ht := holdsTree_frame h.length h.length _ _ (le_refl _) hframe (some c) h.length t
          (hd1 t hr)
        simp only [Option.isSome_some, if_true, List.singleton_append, holdsTrees,
          Bool.and_eq_true]
        exact ⟨ht, hrest⟩
end

/-! ## Reading the document: the claims -/

/-- C8: for a `Union` or `Intersection` element read by `readFilter` (below a null parent
or a parent that is in the heap), the node allocated for it is a `FilterList` whose
children are as many as the filter child elements (tag `Union`, `Intersection`, `Match`
or `Default`) and hold, in document order, exactly the trees of those elements; every other
child node contributes nothing.  The tree of a filter child element is what `readFilter`
builds for that element wherever it is read. -/
theorem readFilter_list_children (tag : String) (attrs : List (String × String))
    (cs : List QDomNode) (par : Option Nat) (h : Heap)
    (htag : tag = "Union" ∨ tag = "Intersection")
    (hpar : ∀ p : Nat, par = some p → p < h.length) :
    (∃ f, (readFilter (QDomNode.element tag attrs cs) par h)[h.length]? = some f ∧
      f.isFilterList = true ∧
      f.children.length = (cs.filter QDomNode.isFilterElement).length ∧
      holdsTrees h.length (readFilter (QDomNode.element tag attrs cs) par h) (some h.length)
        f.children ((cs.filter QDomNode.isFilterElement).filterMap readTree) = true) ∧
    (∀ n, n ∈ cs.filter QDomNode.isFilterElement → ∃ t, readTree n = some t ∧
      ∀ (par2 : Option Nat) (h2 : Heap), (∀ p : Nat, par2 = some p → p < h2.length) →
        holdsTree h2.length (readFilter n par2 h2) par2 h2.length t = true) := by
  constructor
  · obtain ⟨_, _, _, hd⟩ := readFilter_effect (QDomNode.element tag attrs cs) par h hpar
    have htree : ∃ k, (k = FilterKind.Union ∨ k = FilterKind.Intersection) ∧
        ∃ nm en, readTree (QDomNode.element tag attrs cs) =
          some (FilterTree.node k nm en Exact "" "" (readTrees cs)) := by
      rcases htag with ht | ht
      · exact ⟨FilterKind.Union, Or.inl rfl, elementText (firstChildElement cs "Name"),
          decide ((attrs.lookup "active").getD "true" = "true"), by simp [readTree, ht]⟩
      · exact ⟨FilterKind.Intersection, Or.inr rfl, elementText (firstChildElement cs "Name"),
          decide ((attrs.lookup "active").getD "true" = "true"), by simp [readTree, ht]⟩
    obtain ⟨k, hk, nm, en, ht⟩ := htree
    have hh := hd _ ht
    rw [holdsTree_iff] at hh
    obtain ⟨f, hf, _, _, hkind, _, _, _, _, _, hts⟩ := hh
    refine ⟨f, hf, ?_, ?_, ?_⟩
    · rcases hk with hk | hk <;> simp [Filter.isFilterList, hkind, hk]
    · rw [holdsTrees_length _ _ _ _ _ hts, readTrees_length]
    · rw [← readTrees_eq_filterMap]
      exact hts
  · intro n hn
    have hfe : n.isFilterElement = true := (List.mem_filter.mp hn).2
    have hsome : (readTree n).isSome = true := by rw [readTree_isSome_iff]; exact hfe
    obtain ⟨t, ht⟩ := Option.isSome_iff_exists.mp hsome
    exact ⟨t, ht, fun par2 h2 hp2 => (readFilter_effect n par2 h2 hp2).2.2.2 t ht⟩

/-- Witness for C8: the sample `Union` element read below the root. -/
theorem readFilter_list_children_witness :
    (∃ f, (readFilter (QDomNode.element "Union" [] sampleChildNodes) (some 0) sampleRoot)[
        sampleRoot.length]? = some f ∧
      f.isFilterList = true ∧
      f.children.length = (sampleChildNodes.filter QDomNode.isFilterElement).length ∧
      holdsTrees sampleRoot.length
        (readFilter (QDomNode.element "Union" [] sampleChildNodes) (some 0) sampleRoot)
        (some sampleRoot.length)
        f.children ((sampleChildNodes.filter QDomNode.isFilterElement).filterMap readTree) = true) ∧
    (∀ n, n ∈ sampleChildNodes.filter QDomNode.isFilterElement → ∃ t, readTree n = some t ∧
      ∀ (par2 : Option Nat) (h2 : Heap), (∀ p : Nat, par2 = some p → p < h2.length) →
        holdsTree h2.length (readFilter n par2 h2) par2 h2.length t = true) :=
  readFilter_list_children "Union" [] sampleChildNodes (some 0) sampleRoot (Or.inl rfl)
    (by intro p hp; cases hp; decide)

/-- C9: for a `Match` element read by `readFilter` below a `FilterList` parent, the new node is
appended to the children of the parent, and it is a childless `MatchFilter` below that
parent whose key, value and name are the texts of the `Key`, `Value` and `Name` child
elements, whose match type is `Wildcard` or `Regex` exactly for these two values of the
`type` attribute and `Exact` in every other case, and which is enabled when the `active`
attribute is absent or `"true"` and disabled when it is `"false"`. -/
theorem readFilter_match (attrs : List (String × String)) (cs : List QDomNode) (p : Nat)
    (h : Heap) (fp : Filter) (hp : h[p]? = some fp) (hlist : fp.isFilterList = true) :
    (readFilter (QDomNode.element "Match" attrs cs) (some p) h)[p]? =
      some { fp with children := fp.children ++ [h.length] } ∧
    ∃ f, (readFilter (QDomNode.element "Match" attrs cs) (some p) h)[h.length]? = some f ∧
      f.kind = FilterKind.Match ∧ f.parent = some p ∧ f.children = [] ∧
      f.key = elementText (firstChildElement cs "Key") ∧
      f.value = elementText (firstChildElement cs "Value") ∧
      f.name = elementText (firstChildElement cs "Name") ∧
      (attrs.lookup "type" = some "Wildcard" → f.type = Wildcard) ∧
      (attrs.lookup "type" = some "Regex" → f.type = Regex) ∧
      (attrs.lookup "type" ≠ some "Wildcard" → attrs.lookup "type" ≠ some "Regex" →
        f.type = Exact) ∧
      (attrs.lookup "active" = none ∨ attrs.lookup "active" = some "true" →
        f.enabled = true) ∧
      (attrs.lookup "active" = some "false" → f.enabled = false) := by
  have hplt : p < h.length := by
    rcases Nat.lt_or_ge p h.length with h1 | h1
    · exact h1
    · rw [List.getElem?_eq_none h1] at hp; cases hp
  obtain ⟨_, _, hc, hd⟩ := readFilter_effect (QDomNode.element "Match" attrs cs) (some p) h
    (fun q hq => by cases hq; exact hplt)
  have ht : readTree (QDomNode.element "Match" attrs cs) =
      some (FilterTree.node FilterKind.Match (elementText (firstChildElement cs "Name"))
        (decide ((attrs.lookup "active").getD "true" = "true"))
        (if attrs.lookup "type" = some "Wildcard" then Wildcard
          else if attrs.lookup "type" = some "Regex" then Regex else Exact)
        (elementText (firstChildElement cs "Key"))
        (elementText (firstChildElement cs "Value")) []) := by
    simp [readTree]
  constructor
  · have := hc p fp rfl hp
    rw [ht, hlist] at this
    simpa using this
  · have hh := hd _ ht
    rw [holdsTree_iff] at hh
    obtain ⟨f, hf, _, hpar, hkind, hname, hen, hty, hkey, hval, hts⟩ := hh
    have hch : f.children = [] := by
      cases hfc : f.children with
      | nil => rfl
      | cons a l => rw [hfc] at hts; simp [holdsTrees] at hts
    refine ⟨f, hf, hkind, hpar, hch, hkey, hval, hname, ?_, ?_, ?_, ?_, ?_⟩
    · intro ha; rw [hty, ha]; simp
    · intro ha; rw [hty, ha]; simp
    · intro ha hb; rw [hty]; simp [ha, hb]
    · intro ha
      rw [hen]
      rcases ha with ha | ha <;> simp [ha]
    · intro ha
      rw [hen]
      simp [ha]

/-- Witness for C9: a `Match` element of type `Regex` that is not active, read below the
root. -/
theorem readFilter_match_witness :
    (readFilter (QDomNode.element "Match" [("type", "Regex"), ("active", "false")]
        sampleMatchNodes) (some 0) sampleRoot)[0]? =
      some { ({ newUnionFilter none with name := "root" } : Filter) with
        children := ({ newUnionFilter none with name := "root" } : Filter).children ++
          [sampleRoot.length] } ∧
    ∃ f, (readFilter (QDomNode.element "Match" [("type", "Regex"), ("active", "false")]
        sampleMatchNodes) (some 0) sampleRoot)[sampleRoot.length]? = some f ∧
      f.kind = FilterKind.Match ∧ f.parent = some 0 ∧ f.children = [] ∧
      f.key = elementText (firstChildElement sampleMatchNodes "Key") ∧
      f.value = elementText (firstChildElement sampleMatchNodes "Value") ∧
      f.name = elementText (firstChildElement sampleMatchNodes "Name") ∧
      (List.lookup "type" [("type", "Regex"), ("active", "false")] = some "Wildcard" →
        f.type = Wildcard) ∧
      (List.lookup "type" [("type", "Regex"), ("active", "false")] = some "Regex" →
        f.type = Regex) ∧
      (List.lookup "type" [("type", "Regex"), ("active", "false")] ≠ some "Wildcard" →
        List.lookup "type" [("type", "Regex"), ("active", "false")] ≠ some "Regex" →
        f.type = Exact) ∧
      (List.lookup "active" [("type", "Regex"), ("active", "false")] = none ∨
        List.lookup "active" [("type", "Regex"), ("active", "false")] = some "true" →
        f.enabled = true) ∧
      (List.lookup "active" [("type", "Regex"), ("active", "false")] = some "false" →
        f.enabled = false) :=
  readFilter_match [("type", "Regex"), ("active", "false")] sampleMatchNodes 0 sampleRoot
    { newUnionFilter none with name := "root" } (by decide) (by decide)


end FilterEdit
